import Mathlib

/-!
Verification of the poll-app live tally, presence, feed and vote-submission
logic, shallowly embedded from the TypeScript source
(src/pages/PollResultPage.tsx, src/pages/PollList.tsx, PollDetail onSubmit)
and, for the storage-side upsert and presence-channel contract that live in
the managed backend, modelled from the specification.
-/

/-- A poll as read by the result page: id, question and the ordered list of
declared option labels. -/
structure Poll where
  id : String
  question : String
  options : List String
  deriving Repr, DecidableEq

/-- A vote row: poll reference, voter identity used as the upsert key, and
the list of selected option labels. -/
@[ext]
structure Vote where
  poll_id : String
  user_id : String
  selected_options : List String
  deriving Repr, DecidableEq

/-- The vote-count record built by the tally effect: a JavaScript object used
as a finite map from option label to counter, kept in insertion order. -/
abbrev Counts := List (String × Nat)

/-- Reading a property of the record: the JS expression counts[k], with
none standing for undefined. -/
def getKey? : Counts → String → Option Nat
  | [], _ => none
  | (a, b) :: rest, k => if a = k then some b else getKey? rest k

/-- Property assignment counts[k] = v: replaces the binding in place when the
key is present, otherwise appends a new binding. -/
def setKey : Counts → String → Nat → Counts
  | [], k, v => [(k, v)]
  | (a, b) :: rest, k, v =>
    if a = k then (k, v) :: rest else (a, b) :: setKey rest k v

/-- One step of the tally loop, from PollResultPage.tsx lines 84-86:
if (counts[opt] !== undefined) counts[opt]++. -/
def bumpIfPresent (m : Counts) (k : String) : Counts :=
  match getKey? m k with
  | none => m
  | some n => setKey m k (n + 1)

/-- Seeding of the record, from PollResultPage.tsx line 82:
poll.options.forEach((opt) => (counts[opt] = 0)). -/
def initCounts (options : List String) : Counts :=
  options.foldl (fun m opt => setKey m opt 0) []

/-- Processing one vote, from PollResultPage.tsx lines 83-87: every selected
option of the vote bumps its counter when that counter exists. -/
def applyVote (m : Counts) (v : Vote) : Counts :=
  v.selected_options.foldl bumpIfPresent m

/-- The voteCounts effect of PollResultPage.tsx lines 79-89: recompute the
whole tally from the poll and the current vote list. -/
def computeCounts (poll : Poll) (votes : List Vote) : Counts :=
  votes.foldl applyVote (initCounts poll.options)

/-- Sum of all per-option counters held in the tally record. -/
def tallySum (m : Counts) : Nat := (m.map Prod.snd).sum

/-- The displayed total, from PollResultPage.tsx lines 115-118:
votes.reduce((acc, v) => acc + v.selected_options.length, 0). -/
def totalVotes (votes : List Vote) : Nat :=
  (votes.map fun v => v.selected_options.length).sum

/-- Length of a vote's selection once restricted to the declared options. -/
def declaredLen (poll : Poll) (v : Vote) : Nat :=
  (v.selected_options.filter fun o => decide (o ∈ poll.options)).length

theorem getKey?_setKey_self (m : Counts) (k : String) (v : Nat) :
    getKey? (setKey m k v) k = some v := by
  induction m with
  | nil => simp [setKey, getKey?]
  | cons p rest ih =>
    obtain ⟨a, b⟩ := p
    by_cases h : a = k
    · simp [setKey, h, getKey?]
    · simp [setKey, h, getKey?, ih]

theorem getKey?_setKey_other (m : Counts) (k q : String) (v : Nat)
    (h : q ≠ k) : getKey? (setKey m k v) q = getKey? m q := by
  have hkq : ¬ k = q := fun e => h e.symm
  induction m with
  | nil => simp [setKey, getKey?, hkq]
  | cons p rest ih =>
    obtain ⟨a, b⟩ := p
    by_cases hak : a = k
    · have haq : ¬ a = q := fun e => hkq (hak ▸ e)
      simp [setKey, if_pos hak, getKey?, hkq, haq]
    · simp only [setKey, if_neg hak, getKey?, ih]

theorem tallySum_setKey (m : Counts) (k : String) (n : Nat)
    (h : getKey? m k = some n) :
    tallySum (setKey m k (n + 1)) = tallySum m + 1 := by
  induction m with
  | nil => simp [getKey?] at h
  | cons p rest ih =>
    obtain ⟨a, b⟩ := p
    by_cases hak : a = k
    · subst hak
      simp [getKey?] at h
      subst h
      simp [setKey, tallySum]
      omega
    · simp [getKey?, hak] at h
      simp [setKey, hak, tallySum] at ih ⊢
      rw [ih h]
      omega

theorem tallySum_bumpIfPresent (m : Counts) (k : String) :
    tallySum (bumpIfPresent m k)
      = tallySum m + (if (getKey? m k).isSome then 1 else 0) := by
  unfold bumpIfPresent
  cases h : getKey? m k with
  | none => simp
  | some n => simp [tallySum_setKey m k n h]

theorem isSome_getKey?_bumpIfPresent (m : Counts) (b k : String) :
    (getKey? (bumpIfPresent m b) k).isSome = (getKey? m k).isSome := by
  unfold bumpIfPresent
  cases hb : getKey? m b with
  | none => rfl
  | some n =>
    by_cases hk : k = b
    · subst hk
      simp [getKey?_setKey_self, hb]
    · simp [getKey?_setKey_other m b k (n + 1) hk]

theorem getKey?_bumpIfPresent_other (m : Counts) (b k : String) (h : k ≠ b) :
    getKey? (bumpIfPresent m b) k = getKey? m k := by
  unfold bumpIfPresent
  cases hb : getKey? m b with
  | none => rfl
  | some n => simp [getKey?_setKey_other m b k (n + 1) h]

theorem getKey?_bumpIfPresent_none (m : Counts) (b k : String)
    (h : getKey? m k = none) : getKey? (bumpIfPresent m b) k = none := by
  have hs := isSome_getKey?_bumpIfPresent m b k
  rw [h] at hs
  cases hg : getKey? (bumpIfPresent m b) k with
  | none => rfl
  | some n => rw [hg] at hs; simp at hs

theorem tallySum_foldl_bump (l : List String) (m : Counts) :
    tallySum (l.foldl bumpIfPresent m)
      = tallySum m + (l.filter fun o => (getKey? m o).isSome).length := by
  induction l generalizing m with
  | nil => simp
  | cons o l ih =>
    rw [List.foldl_cons, ih (bumpIfPresent m o)]
    have hf : (l.filter fun q => (getKey? (bumpIfPresent m o) q).isSome)
        = l.filter fun q => (getKey? m q).isSome :=
      List.filter_congr fun q _ => by rw [isSome_getKey?_bumpIfPresent]
    rw [hf, tallySum_bumpIfPresent]
    cases hs : (getKey? m o).isSome
    · simp [List.filter_cons, hs]
    · simp [List.filter_cons, hs]
      omega

theorem tallySum_applyVote (m : Counts) (v : Vote) :
    tallySum (applyVote m v)
      = tallySum m
        + (v.selected_options.filter fun o => (getKey? m o).isSome).length :=
  tallySum_foldl_bump v.selected_options m

theorem isSome_getKey?_foldl_bump (l : List String) (m : Counts) (k : String) :
    (getKey? (l.foldl bumpIfPresent m) k).isSome = (getKey? m k).isSome := by
  induction l generalizing m with
  | nil => rfl
  | cons o l ih => rw [List.foldl_cons, ih, isSome_getKey?_bumpIfPresent]

theorem isSome_getKey?_applyVote (m : Counts) (v : Vote) (k : String) :
    (getKey? (applyVote m v) k).isSome = (getKey? m k).isSome :=
  isSome_getKey?_foldl_bump v.selected_options m k

theorem getKey?_applyVote_none (m : Counts) (v : Vote) (k : String)
    (h : getKey? m k = none) : getKey? (applyVote m v) k = none := by
  unfold applyVote
  induction v.selected_options generalizing m with
  | nil => exact h
  | cons o l ih =>
    rw [List.foldl_cons]
    exact ih _ (getKey?_bumpIfPresent_none m o k h)

theorem getKey?_foldl_bump_not_mem (l : List String) (m : Counts) (k : String)
    (h : k ∉ l) : getKey? (l.foldl bumpIfPresent m) k = getKey? m k := by
  induction l generalizing m with
  | nil => rfl
  | cons o l ih =>
    rw [List.foldl_cons]
    have hk : k ≠ o := fun e => h (e ▸ List.mem_cons_self o l)
    rw [ih _ fun hm => h (List.mem_cons_of_mem o hm),
      getKey?_bumpIfPresent_other m o k hk]

theorem getKey?_applyVote_not_selected (m : Counts) (v : Vote) (k : String)
    (h : k ∉ v.selected_options) : getKey? (applyVote m v) k = getKey? m k :=
  getKey?_foldl_bump_not_mem v.selected_options m k h

theorem tallySum_foldl_applyVote (votes : List Vote) (m : Counts) :
    tallySum (votes.foldl applyVote m)
      = tallySum m
        + (votes.map fun v =>
            (v.selected_options.filter fun o => (getKey? m o).isSome).length).sum := by
  induction votes generalizing m with
  | nil => simp
  | cons v vs ih =>
    rw [List.foldl_cons, ih (applyVote m v), tallySum_applyVote]
    have hm : (vs.map fun w =>
          (w.selected_options.filter fun o =>
            (getKey? (applyVote m v) o).isSome).length)
        = vs.map fun w =>
            (w.selected_options.filter fun o => (getKey? m o).isSome).length :=
      List.map_congr_left fun w _ =>
        congrArg List.length
          (List.filter_congr fun o _ => by rw [isSome_getKey?_applyVote])
    rw [hm, List.map_cons, List.sum_cons]
    omega

theorem getKey?_foldl_applyVote_none (votes : List Vote) (m : Counts)
    (k : String) (h : getKey? m k = none) :
    getKey? (votes.foldl applyVote m) k = none := by
  induction votes generalizing m with
  | nil => exact h
  | cons v vs ih =>
    rw [List.foldl_cons]
    exact ih _ (getKey?_applyVote_none m v k h)

theorem isSome_getKey?_foldl_applyVote (votes : List Vote) (m : Counts)
    (k : String) :
    (getKey? (votes.foldl applyVote m) k).isSome = (getKey? m k).isSome := by
  induction votes generalizing m with
  | nil => rfl
  | cons v vs ih => rw [List.foldl_cons, ih, isSome_getKey?_applyVote]

theorem getKey?_foldl_applyVote_not_selected (votes : List Vote) (m : Counts)
    (k : String) (h : ∀ v ∈ votes, k ∉ v.selected_options) :
    getKey? (votes.foldl applyVote m) k = getKey? m k := by
  induction votes generalizing m with
  | nil => rfl
  | cons v vs ih =>
    rw [List.foldl_cons, ih _ fun w hw => h w (List.mem_cons_of_mem v hw),
      getKey?_applyVote_not_selected m v k (h v (List.mem_cons_self v vs))]

theorem getKey?_foldl_setKey_zero (opts : List String) (m : Counts)
    (k : String) :
    getKey? (opts.foldl (fun acc o => setKey acc o 0) m) k
      = if k ∈ opts then some 0 else getKey? m k := by
  induction opts generalizing m with
  | nil => simp
  | cons o os ih =>
    rw [List.foldl_cons, ih (setKey m o 0)]
    by_cases hk : k ∈ os
    · simp [hk, List.mem_cons]
    · by_cases hko : k = o
      · subst hko
        simp [hk, getKey?_setKey_self]
      · simp [hk, hko, getKey?_setKey_other m o k 0 hko]

theorem getKey?_initCounts (opts : List String) (k : String) :
    getKey? (initCounts opts) k = if k ∈ opts then some 0 else none := by
  unfold initCounts
  rw [getKey?_foldl_setKey_zero opts [] k]
  rfl

theorem mem_setKey (m : Counts) (k : String) (v : Nat) :
    ∀ p ∈ setKey m k v, p ∈ m ∨ p = (k, v) := by
  induction m with
  | nil =>
    intro p hp
    simp [setKey] at hp
    right
    exact hp
  | cons q rest ih =>
    obtain ⟨a, b⟩ := q
    intro p hp
    by_cases hak : a = k
    · simp [setKey, hak] at hp
      rcases hp with h | h
      · right; exact h
      · left; exact List.mem_cons_of_mem _ h
    · simp only [setKey, if_neg hak, List.mem_cons] at hp
      rcases hp with h | h
      · left; exact h ▸ List.mem_cons_self _ _
      · rcases ih p h with h1 | h1
        · left; exact List.mem_cons_of_mem _ h1
        · right; exact h1

theorem snd_eq_zero_initCounts (opts : List String) :
    ∀ p ∈ initCounts opts, p.2 = 0 := by
  unfold initCounts
  have key : ∀ (os : List String) (m : Counts), (∀ p ∈ m, p.2 = 0) →
      ∀ p ∈ os.foldl (fun acc o => setKey acc o 0) m, p.2 = 0 := by
    intro os
    induction os with
    | nil => intro m hm; exact hm
    | cons o os ih =>
      intro m hm
      rw [List.foldl_cons]
      refine ih (setKey m o 0) ?_
      intro p hp
      rcases mem_setKey m o 0 p hp with h | h
      · exact hm p h
      · rw [h]
  exact key opts [] (by intro p hp; cases hp)

theorem tallySum_initCounts (opts : List String) :
    tallySum (initCounts opts) = 0 := by
  refine List.sum_eq_zero ?_
  intro x hx
  rw [List.mem_map] at hx
  obtain ⟨p, hp, rfl⟩ := hx
  exact snd_eq_zero_initCounts opts p hp

theorem tallySum_computeCounts (poll : Poll) (votes : List Vote) :
    tallySum (computeCounts poll votes)
      = (votes.map fun v => declaredLen poll v).sum := by
  unfold computeCounts
  rw [tallySum_foldl_applyVote votes (initCounts poll.options),
    tallySum_initCounts, Nat.zero_add]
  refine congrArg List.sum (List.map_congr_left ?_)
  intro v _
  unfold declaredLen
  refine congrArg List.length (List.filter_congr ?_)
  intro o _
  rw [getKey?_initCounts]
  by_cases h : o ∈ poll.options <;> simp [h]

theorem getKey?_computeCounts_not_mem (poll : Poll) (votes : List Vote)
    (k : String) (h : k ∉ poll.options) :
    getKey? (computeCounts poll votes) k = none := by
  unfold computeCounts
  refine getKey?_foldl_applyVote_none votes (initCounts poll.options) k ?_
  rw [getKey?_initCounts]
  simp [h]

/-- The Red/Blue example poll used by the specification scenarios. -/
def pollRB : Poll := { id := "p1", question := "q", options := ["Red", "Blue"] }

/-- Three votes of the specification scenario: Red, Blue, Red. -/
def votesRB : List Vote :=
  [ { poll_id := "p1", user_id := "voter1", selected_options := ["Red"] },
    { poll_id := "p1", user_id := "voter2", selected_options := ["Blue"] },
    { poll_id := "p1", user_id := "voter3", selected_options := ["Red"] } ]

/-- A vote whose selection is not among the declared options of pollRB. -/
def voteGreen : Vote :=
  { poll_id := "p1", user_id := "voter4", selected_options := ["Green"] }

/-- C1 counterexample: on the poll with options Red and Blue, a stored vote
selecting the undeclared label Green makes the sum of per-option counts 0
while the displayed totalVotes is 1, so the claimed equality fails for this
vote list. -/
theorem tally_sum_ne_totalVotes_counterexample :
    tallySum (computeCounts pollRB [voteGreen]) = 0 ∧
    totalVotes [voteGreen] = 1 ∧
    tallySum (computeCounts pollRB [voteGreen]) ≠ totalVotes [voteGreen] := by
  decide

/-- C1 (amended): whenever every vote's selected options are all among the
poll's declared options, the sum of all per-option counts in the recomputed
tally equals the sum over votes of the number of selected options in each
vote (the displayed totalVotes). -/
theorem tally_sum_eq_totalVotes_of_subset (poll : Poll) (votes : List Vote)
    (h : ∀ v ∈ votes, ∀ o ∈ v.selected_options, o ∈ poll.options) :
    tallySum (computeCounts poll votes) = totalVotes votes := by
  rw [tallySum_computeCounts]
  unfold totalVotes
  refine congrArg List.sum (List.map_congr_left ?_)
  intro v hv
  unfold declaredLen
  have hf : (v.selected_options.filter fun o => decide (o ∈ poll.options))
      = v.selected_options :=
    List.filter_eq_self.mpr fun o ho => by simp [h v hv o ho]
  rw [hf]

/-- Witness for the amended C1 at the Red/Blue scenario with three votes. -/
theorem tally_sum_eq_totalVotes_of_subset_witness :
    tallySum (computeCounts pollRB votesRB) = totalVotes votesRB :=
  tally_sum_eq_totalVotes_of_subset pollRB votesRB (by decide)

/-- C7: every option declared by the poll appears in the recomputed tally,
and its count is 0 when no vote selects it. -/
theorem declared_option_in_tally (poll : Poll) (votes : List Vote)
    (o : String) (ho : o ∈ poll.options) :
    (getKey? (computeCounts poll votes) o).isSome = true ∧
    ((∀ v ∈ votes, o ∉ v.selected_options) →
      getKey? (computeCounts poll votes) o = some 0) := by
  constructor
  · unfold computeCounts
    rw [isSome_getKey?_foldl_applyVote, getKey?_initCounts]
    simp [ho]
  · intro h
    unfold computeCounts
    rw [getKey?_foldl_applyVote_not_selected votes _ o h, getKey?_initCounts]
    simp [ho]

/-- Witness for C7: option Blue of pollRB stays present with count 0 when the
only stored vote selects Green. -/
theorem declared_option_in_tally_witness :
    (getKey? (computeCounts pollRB [voteGreen]) "Blue").isSome = true ∧
    getKey? (computeCounts pollRB [voteGreen]) "Blue" = some 0 :=
  ⟨(declared_option_in_tally pollRB [voteGreen] "Blue" (by decide)).1,
   (declared_option_in_tally pollRB [voteGreen] "Blue" (by decide)).2
     (by decide)⟩

/-- C10: a selected label outside the declared options never obtains a
counter in the tally, the tally sum counts exactly the declared selections of
each vote, and on a concrete vote list the tally sum is strictly below the
displayed totalVotes. -/
theorem undeclared_option_ignored :
    (∀ (poll : Poll) (votes : List Vote) (o : String), o ∉ poll.options →
        getKey? (computeCounts poll votes) o = none) ∧
    (∀ (poll : Poll) (votes : List Vote),
        tallySum (computeCounts poll votes)
          = (votes.map fun v => declaredLen poll v).sum) ∧
    tallySum (computeCounts pollRB [voteGreen]) < totalVotes [voteGreen] :=
  ⟨fun poll votes o h => getKey?_computeCounts_not_mem poll votes o h,
   fun poll votes => tallySum_computeCounts poll votes,
   by decide⟩

/-- Witness for C10 at the undeclared label Green of pollRB. -/
theorem undeclared_option_ignored_witness :
    getKey? (computeCounts pollRB [voteGreen]) "Green" = none :=
  undeclared_option_ignored.1 pollRB [voteGreen] "Green" (by decide)

/-- The view filters offered by the poll list page. -/
inductive FeedFilter
  | all
  | active
  | ended
  | mine
  deriving Repr, DecidableEq

/-- The poll-list page size, PAGE_SIZE = 10 in PollList.tsx. -/
def PAGE_SIZE : Nat := 10

/-- The guard search.trim() === "" of the insertion listener: the search term
trims to the empty string exactly when every character is whitespace. -/
def trimEmpty (search : String) : Bool :=
  search.data.all fun c => c.isWhitespace

/-- The realtime insertion listener of PollList.tsx lines 95-120: a creation
event is processed only on page 1 with a blank search and the all filter; an
id already present leaves the list unchanged; otherwise the new poll is
prepended to the first PAGE_SIZE - 1 entries of the list. -/
def handleInsertEvent (page : Nat) (search : String) (filter : FeedFilter)
    (prev : List Poll) (newPoll : Poll) : List Poll :=
  if page = 1 ∧ trimEmpty search = true ∧ filter = FeedFilter.all then
    if prev.any fun p => p.id == newPoll.id then prev
    else newPoll :: prev.take (PAGE_SIZE - 1)
  else prev

/-- C3: a poll-creation event is admitted only when the page is 1, the search
is blank and the filter is all; under any other view state the event is
suppressed; when admitted with a fresh id the poll is prepended, the result
stays within the page size, and a list at capacity drops its last element. -/
theorem feed_admission (page : Nat) (search : String) (filter : FeedFilter)
    (prev : List Poll) (newPoll : Poll) :
    (¬(page = 1 ∧ trimEmpty search = true ∧ filter = FeedFilter.all) →
        handleInsertEvent page search filter prev newPoll = prev) ∧
    (page = 1 → trimEmpty search = true → filter = FeedFilter.all →
      (∀ p ∈ prev, p.id ≠ newPoll.id) →
        handleInsertEvent page search filter prev newPoll
            = newPoll :: prev.take (PAGE_SIZE - 1) ∧
          (handleInsertEvent page search filter prev newPoll).length
            ≤ PAGE_SIZE ∧
          (prev.length = PAGE_SIZE →
            handleInsertEvent page search filter prev newPoll
              = newPoll :: prev.dropLast)) := by
  constructor
  · intro h
    unfold handleInsertEvent
    rw [if_neg h]
  · intro h1 h2 h3 hfresh
    have hany : (prev.any fun p => p.id == newPoll.id) = false :=
      List.any_eq_false.mpr fun p hp => by simp [hfresh p hp]
    have he : handleInsertEvent page search filter prev newPoll
        = newPoll :: prev.take (PAGE_SIZE - 1) := by
      unfold handleInsertEvent
      rw [if_pos ⟨h1, h2, h3⟩, hany]
      simp
    refine ⟨he, ?_, ?_⟩
    · rw [he]
      simp only [List.length_cons, List.length_take]
      unfold PAGE_SIZE
      omega
    · intro hlen
      rw [he, List.dropLast_eq_take, hlen]

/-- Ten distinct polls filling the first feed page. -/
def feedTen : List Poll :=
  (List.range PAGE_SIZE).map fun n =>
    { id := toString n, question := "q", options := ["A", "B"] }

/-- A freshly created poll absent from feedTen. -/
def pollNew : Poll := { id := "new", question := "q", options := ["A", "B"] }

/-- Witness for C3: on the admissible view state the new poll is prepended
and the tail entry of the full page is dropped; under the mine filter the
same event is suppressed. -/
theorem feed_admission_witness :
    handleInsertEvent 1 "" FeedFilter.all feedTen pollNew
        = pollNew :: feedTen.dropLast ∧
    handleInsertEvent 1 "" FeedFilter.mine feedTen pollNew = feedTen :=
  ⟨((feed_admission 1 "" FeedFilter.all feedTen pollNew).2 rfl (by decide)
      rfl (by decide)).2.2 (by decide),
   (feed_admission 1 "" FeedFilter.mine feedTen pollNew).1 (by decide)⟩

/-- C8: a creation notification whose poll id is already in the visible list
leaves the list unchanged, whatever the view state. -/
theorem feed_duplicate_noop (page : Nat) (search : String)
    (filter : FeedFilter) (prev : List Poll) (newPoll : Poll)
    (h : ∃ p ∈ prev, p.id = newPoll.id) :
    handleInsertEvent page search filter prev newPoll = prev := by
  unfold handleInsertEvent
  by_cases hc : page = 1 ∧ trimEmpty search = true ∧ filter = FeedFilter.all
  · have ha : (prev.any fun p => p.id == newPoll.id) = true := by
      obtain ⟨p, hp, he⟩ := h
      exact List.any_eq_true.mpr ⟨p, hp, by simp [he]⟩
    rw [if_pos hc, ha]
    simp
  · rw [if_neg hc]

/-- Witness for C8: replaying the creation of the poll already heading the
full first page changes nothing. -/
theorem feed_duplicate_noop_witness :
    handleInsertEvent 1 "" FeedFilter.all feedTen
        { id := "0", question := "q", options := ["A", "B"] } = feedTen :=
  feed_duplicate_noop 1 "" FeedFilter.all feedTen
    { id := "0", question := "q", options := ["A", "B"] } (by decide)

/-- Two-digit rendering of the fractional part, as printed by toFixed(2). -/
def twoDigits (n : Nat) : String :=
  if n < 10 then "0" ++ toString n else toString n

/-- Decimal rendering NN.NN of a quantity of hundredths. -/
def formatHundredths (h : Nat) : String :=
  toString (h / 100) ++ "." ++ twoDigits (h % 100)

/-- The percent cell of handleExportCSV, PollResultPage.tsx lines 138-139:
totalVotes > 0 ? ((value / totalVotes) * 100).toFixed(2) + "%" : "0%".
The toFixed(2) rounding of the real quotient is modelled exactly as value *
10000 / total hundredths rounded to the nearest integer, halves upward. -/
def percentString (value total : Nat) : String :=
  if 0 < total then
    formatHundredths ((value * 10000 * 2 + total) / (2 * total)) ++ "%"
  else "0%"

/-- chartData of PollResultPage.tsx lines 120-124: one entry per declared
option carrying voteCounts[option] || 0. -/
def chartData (poll : Poll) (votes : List Vote) : List (String × Nat) :=
  poll.options.map fun option =>
    (option, (getKey? (computeCounts poll votes) option).getD 0)

/-- handleExportCSV of PollResultPage.tsx lines 135-149: the header line
followed by one Option,Votes,Percent row per chartData entry, rows joined by
newlines. -/
def handleExportCSV (poll : Poll) (votes : List Vote) : String :=
  "Option,Votes,Percent\n" ++
    String.intercalate "\n"
      ((chartData poll votes).map fun p =>
        p.1 ++ "," ++ toString p.2 ++ ","
          ++ percentString p.2 (totalVotes votes))

/-- C5: the CSV export carries the header Option,Votes,Percent; on the poll
with options Red and Blue and the three votes Red, Blue, Red it renders
exactly the specified string; with no votes each row shows 0%; and a zero
total always renders 0% instead of dividing. -/
theorem csv_export_scenarios :
    handleExportCSV pollRB votesRB
        = "Option,Votes,Percent\nRed,2,66.67%\nBlue,1,33.33%" ∧
    handleExportCSV pollRB []
        = "Option,Votes,Percent\nRed,0,0%\nBlue,0,0%" ∧
    ∀ value : Nat, percentString value 0 = "0%" :=
  ⟨by decide, by decide, fun value => rfl⟩

/-- Modelled from the spec: the presence channel of a poll keeps one session
entry per joined client, labelled by its presence key; the channel itself
lives in the realtime backend, outside this repository. Joining adds a
session for the key. -/
def joinKey (k : String) (sessions : List String) : List String :=
  k :: sessions

/-- Modelled from the spec: a presence key leaving the channel has its
sessions removed from the presence table. -/
def leaveKey (k : String) (sessions : List String) : List String :=
  sessions.filter fun s => s != k

/-- The sync handler of PollResultPage.tsx lines 101-105: the viewer count is
the number of distinct presence keys of the channel state,
Object.keys(state).length. -/
def viewersCount (sessions : List String) : Nat :=
  sessions.toFinset.card

/-- The presence key chosen in PollResultPage.tsx line 95: the authenticated
user id when available, else the persisted anonymous token,
user?.id || anonId. -/
def presenceKey (userId : Option String) (anonId : String) : String :=
  userId.getD anonId

/-- C4: the viewer count equals the number of distinct presence keys
currently joined; a key leaving decrements it; a key joining while already
joined leaves it unchanged. -/
theorem viewers_count_distinct (sessions : List String) (k : String) :
    viewersCount sessions = sessions.dedup.length ∧
    (k ∈ sessions → viewersCount (leaveKey k sessions)
        = viewersCount sessions - 1) ∧
    (k ∈ sessions → viewersCount (joinKey k sessions)
        = viewersCount sessions) := by
  refine ⟨List.card_toFinset sessions, ?_, ?_⟩
  · intro hk
    unfold viewersCount leaveKey
    have hf : (sessions.filter fun s => s != k).toFinset
        = sessions.toFinset.erase k := by
      ext x
      simp only [List.mem_toFinset, List.mem_filter, Finset.mem_erase,
        bne_iff_ne]
      tauto
    rw [hf, Finset.card_erase_of_mem (List.mem_toFinset.mpr hk)]
  · intro hk
    unfold viewersCount joinKey
    rw [List.toFinset_cons,
      Finset.insert_eq_self.mpr (List.mem_toFinset.mpr hk)]

/-- Witness for C4 on the concrete presence table with keys a, b, a. -/
theorem viewers_count_distinct_witness :
    viewersCount ["a", "b", "a"] = 2 ∧
    viewersCount (leaveKey "a" ["a", "b", "a"])
      = viewersCount ["a", "b", "a"] - 1 ∧
    viewersCount (joinKey "a" ["a", "b", "a"]) = viewersCount ["a", "b", "a"] :=
  ⟨by decide,
   (viewers_count_distinct ["a", "b", "a"] "a").2.1 (by decide),
   (viewers_count_distinct ["a", "b", "a"] "a").2.2 (by decide)⟩

/-- C9 counterexample: two anonymous tabs of one device reuse the persisted
token and therefore the same presence key, so after both join an empty
channel the viewer count is 1, not the claimed 2. -/
theorem same_device_tabs_counterexample :
    viewersCount (joinKey (presenceKey none "tok")
        (joinKey (presenceKey none "tok") [])) = 1 ∧
    viewersCount (joinKey (presenceKey none "tok")
        (joinKey (presenceKey none "tok") [])) ≠ 2 := by
  decide

/-- C9 (amended): because the anonymous identity is a persisted token reused
across sessions of one device, two anonymous tabs of that device share one
presence key, and both joining raises the viewer count by exactly one when
the token was not yet joined. -/
theorem same_device_tabs_single_key (sessions : List String) (tok : String)
    (h : tok ∉ sessions) :
    viewersCount (joinKey (presenceKey none tok)
        (joinKey (presenceKey none tok) sessions))
      = viewersCount sessions + 1 := by
  unfold viewersCount joinKey presenceKey
  simp only [Option.getD]
  rw [List.toFinset_cons, List.toFinset_cons, Finset.insert_idem,
    Finset.card_insert_of_not_mem fun hm => h (List.mem_toFinset.mp hm)]

/-- Witness for the amended C9: two same-device anonymous tabs joining the
empty channel yield a viewer count of one. -/
theorem same_device_tabs_single_key_witness :
    viewersCount (joinKey (presenceKey none "tok")
        (joinKey (presenceKey none "tok") [])) = viewersCount [] + 1 :=
  same_device_tabs_single_key [] "tok" (by decide)

/-- The Boolean conflict test of the vote upsert: whether a row carries the
conflict key (poll_id, user_id). -/
def keyMatch (pid uid : String) (r : Vote) : Bool :=
  r.poll_id == pid && r.user_id == uid

/-- Modelled from the spec: the storage-side upsert invoked by onSubmit,
supabase.from("votes").upsert(..., onConflict "poll_id,user_id"), which lives
in the storage backend outside this repository: the row conflicting on
(poll_id, user_id) has its selected_options replaced in place; absent a
conflict the new row is appended. -/
def upsertVote : List Vote → Vote → List Vote
  | [], v => [v]
  | r :: rest, v =>
    if keyMatch v.poll_id v.user_id r then
      { r with selected_options := v.selected_options } :: rest
    else
      r :: upsertVote rest v

/-- The rows of the store carrying a given conflict key. -/
def rowsFor (store : List Vote) (pid uid : String) : List Vote :=
  store.filter (keyMatch pid uid)

/-- The storage invariant: at most one vote row per (poll, voter identity)
pair. -/
def atMostOne (store : List Vote) : Prop :=
  ∀ pid uid, (rowsFor store pid uid).length ≤ 1

/-- The vote snapshot read by fetchVotes, PollResultPage.tsx lines 45-51:
the rows of the store belonging to one poll. -/
def listVotes (store : List Vote) (pid : String) : List Vote :=
  store.filter fun r => r.poll_id == pid


theorem atMostOne_tail (r : Vote) (rest : List Vote)
    (h : atMostOne (r :: rest)) : atMostOne rest := by
  intro pid uid
  have hr := h pid uid
  unfold rowsFor at hr ⊢
  rw [List.filter_cons] at hr
  by_cases hm : keyMatch pid uid r = true
  · rw [if_pos hm, List.length_cons] at hr
    omega
  · rw [if_neg hm] at hr
    exact hr

theorem rowsFor_upsert_self (store : List Vote) (v : Vote)
    (h : atMostOne store) :
    rowsFor (upsertVote store v) v.poll_id v.user_id = [v] := by
  induction store with
  | nil =>
    unfold upsertVote rowsFor
    simp [keyMatch]
  | cons r rest ih =>
    by_cases hm : keyMatch v.poll_id v.user_id r = true
    · have hmat := hm
      simp only [keyMatch, Bool.and_eq_true, beq_iff_eq] at hmat
      obtain ⟨hp, hu⟩ := hmat
      have hv : ({ r with selected_options := v.selected_options } : Vote)
          = v := Vote.ext hp hu rfl
      have hrest : List.filter (keyMatch v.poll_id v.user_id) rest = [] := by
        have hr := h v.poll_id v.user_id
        unfold rowsFor at hr
        rw [List.filter_cons, if_pos hm, List.length_cons] at hr
        have h0 : (List.filter (keyMatch v.poll_id v.user_id) rest).length
            = 0 := by omega
        exact List.length_eq_zero.mp h0
      have hmw : keyMatch v.poll_id v.user_id
          { r with selected_options := v.selected_options } = true := hm
      unfold upsertVote rowsFor
      rw [if_pos hm, List.filter_cons, if_pos hmw, hv, hrest]
    · unfold upsertVote rowsFor
      rw [if_neg hm, List.filter_cons, if_neg hm]
      exact ih (atMostOne_tail r rest h)

theorem rowsFor_upsert_other (store : List Vote) (v : Vote)
    (pid uid : String) (hne : ¬(pid = v.poll_id ∧ uid = v.user_id)) :
    rowsFor (upsertVote store v) pid uid = rowsFor store pid uid := by
  have hv : keyMatch pid uid v = false := by
    simp only [keyMatch, Bool.and_eq_false_iff, beq_eq_false_iff_ne, ne_eq]
    by_cases hq : v.poll_id = pid
    · right
      intro hx
      exact hne ⟨hq.symm, hx.symm⟩
    · left
      exact hq
  induction store with
  | nil =>
    unfold upsertVote rowsFor
    simp [hv]
  | cons r rest ih =>
    by_cases hm : keyMatch v.poll_id v.user_id r = true
    · have hmat := hm
      simp only [keyMatch, Bool.and_eq_true, beq_iff_eq] at hmat
      obtain ⟨hp, hu⟩ := hmat
      have hkr : keyMatch pid uid r = false := by
        rw [keyMatch, hp, hu]
        rw [keyMatch] at hv
        exact hv
      have hkw : keyMatch pid uid
          { r with selected_options := v.selected_options } = false := hkr
      unfold upsertVote rowsFor
      rw [if_pos hm, List.filter_cons, if_neg (by simp [hkw]),
        List.filter_cons, if_neg (by simp [hkr])]
    · unfold upsertVote rowsFor
      unfold rowsFor at ih
      rw [if_neg hm, List.filter_cons, List.filter_cons]
      by_cases hkr : keyMatch pid uid r = true
      · rw [if_pos hkr, if_pos hkr, ih]
      · rw [if_neg hkr, if_neg hkr, ih]

theorem atMostOne_upsert (store : List Vote) (v : Vote)
    (h : atMostOne store) : atMostOne (upsertVote store v) := by
  intro pid uid
  by_cases hk : pid = v.poll_id ∧ uid = v.user_id
  · obtain ⟨h1, h2⟩ := hk
    subst h1
    subst h2
    rw [rowsFor_upsert_self store v h]
    simp
  · rw [rowsFor_upsert_other store v pid uid hk]
    exact h pid uid

theorem upsert_absorb (store : List Vote) (v w : Vote)
    (hp : w.poll_id = v.poll_id) (hu : w.user_id = v.user_id) :
    upsertVote (upsertVote store w) v = upsertVote store v := by
  induction store with
  | nil =>
    have hm : keyMatch v.poll_id v.user_id w = true := by
      simp [keyMatch, hp, hu]
    have hv : ({ w with selected_options := v.selected_options } : Vote)
        = v := Vote.ext hp hu rfl
    simp only [upsertVote, hm, if_true, hv]
  | cons r rest ih =>
    by_cases hm : keyMatch w.poll_id w.user_id r = true
    · have hmv : keyMatch v.poll_id v.user_id r = true := by
        rw [← hp, ← hu]
        exact hm
      have hmw : keyMatch v.poll_id v.user_id
          { r with selected_options := w.selected_options } = true := hmv
      simp [upsertVote, hm, hmv, hmw]
    · have hmB : keyMatch w.poll_id w.user_id r = false := by
        simp at hm
        exact hm
      have hmv : keyMatch v.poll_id v.user_id r = false := by
        rw [← hp, ← hu]
        exact hmB
      simp [upsertVote, hmB, hmv, ih]

/-- C2: under the at-most-one-row invariant, an upsert keeps the invariant,
leaves exactly one row carrying the new selected options for its conflict
key, a second upsert for the same key produces the same store as the later
upsert alone, and hence the tally computed from the poll's vote snapshot
reflects only the new selection. -/
theorem upsert_replace (store : List Vote) (v w : Vote) (poll : Poll)
    (h : atMostOne store) (hp : w.poll_id = v.poll_id)
    (hu : w.user_id = v.user_id) :
    atMostOne (upsertVote store v) ∧
    rowsFor (upsertVote store v) v.poll_id v.user_id = [v] ∧
    upsertVote (upsertVote store w) v = upsertVote store v ∧
    computeCounts poll (listVotes (upsertVote (upsertVote store w) v)
        v.poll_id)
      = computeCounts poll (listVotes (upsertVote store v) v.poll_id) :=
  ⟨atMostOne_upsert store v h, rowsFor_upsert_self store v h,
   upsert_absorb store v w hp hu,
   congrArg (fun s => computeCounts poll (listVotes s v.poll_id))
     (upsert_absorb store v w hp hu)⟩

/-- The first vote of a voter who will change their selection. -/
def voteRedFirst : Vote :=
  { poll_id := "p1", user_id := "voter1", selected_options := ["Red"] }

/-- The replacement vote of that same voter. -/
def voteBlueSecond : Vote :=
  { poll_id := "p1", user_id := "voter1", selected_options := ["Blue"] }

/-- Witness for C2: upserting Red then Blue for one voter leaves a single
row carrying Blue, and the recomputed tally matches the one of a single Blue
upsert. -/
theorem upsert_replace_witness :
    rowsFor (upsertVote [] voteBlueSecond) voteBlueSecond.poll_id
        voteBlueSecond.user_id = [voteBlueSecond] ∧
    upsertVote (upsertVote [] voteRedFirst) voteBlueSecond
      = upsertVote [] voteBlueSecond ∧
    computeCounts pollRB (listVotes (upsertVote (upsertVote [] voteRedFirst)
        voteBlueSecond) voteBlueSecond.poll_id)
      = computeCounts pollRB (listVotes (upsertVote [] voteBlueSecond)
          voteBlueSecond.poll_id) :=
  ⟨(upsert_replace [] voteBlueSecond voteRedFirst pollRB
      (fun pid uid => by simp [rowsFor]) rfl rfl).2.1,
   (upsert_replace [] voteBlueSecond voteRedFirst pollRB
      (fun pid uid => by simp [rowsFor]) rfl rfl).2.2.1,
   (upsert_replace [] voteBlueSecond voteRedFirst pollRB
      (fun pid uid => by simp [rowsFor]) rfl rfl).2.2.2⟩

/-- The outcome of a vote submission as shown to the user. -/
inductive SubmitOutcome
  | validationError
  | alreadyVoted
  | ok
  deriving Repr, DecidableEq

/-- onSubmit of the voting page (PollDetail, src/pages/CreatePoll.tsx lines
292-326): reject when the poll id is missing or nothing is selected; reject
when the voter has voted and vote change is not allowed; otherwise upsert the
row keyed on (poll_id, user_id). Returns the outcome together with the vote
store after the call. -/
def onSubmit (pollId : Option String) (voter : String)
    (selected : List String) (hasVoted allowVoteChange : Bool)
    (store : List Vote) : SubmitOutcome × List Vote :=
  match pollId with
  | none => (SubmitOutcome.validationError, store)
  | some pid =>
    if selected.isEmpty then (SubmitOutcome.validationError, store)
    else if hasVoted && !allowVoteChange then
      (SubmitOutcome.alreadyVoted, store)
    else (SubmitOutcome.ok, upsertVote store ⟨pid, voter, selected⟩)

/-- C6 counterexample: submitting the selection Green, which is not a subset
of pollRB's options Red and Blue, is not rejected: the outcome is ok and the
non-subset row reaches the vote store. -/
theorem non_subset_vote_accepted :
    ("Green" ∈ pollRB.options → False) ∧
    onSubmit (some "p1") "voter1" ["Green"] false false []
      = (SubmitOutcome.ok, [⟨"p1", "voter1", ["Green"]⟩]) := by
  decide

/-- C6 (amended): with the poll id present, the submission returns a
validation error exactly when the selection is empty — membership of the
selection in the poll's options is never checked — and on every outcome
other than ok the vote store is left unchanged. -/
theorem validation_error_iff_empty (pid voter : String)
    (selected : List String) (hasVoted allowVoteChange : Bool)
    (store : List Vote) :
    ((onSubmit (some pid) voter selected hasVoted allowVoteChange store).1
        = SubmitOutcome.validationError ↔ selected = []) ∧
    ((onSubmit (some pid) voter selected hasVoted allowVoteChange store).1
        ≠ SubmitOutcome.ok →
      (onSubmit (some pid) voter selected hasVoted allowVoteChange
          store).2 = store) := by
  unfold onSubmit
  by_cases hs : selected.isEmpty = true
  · simp [hs, List.isEmpty_iff.mp hs]
  · have hne : ¬ selected = [] := fun e => hs (List.isEmpty_iff.mpr e)
    cases hv : hasVoted && !allowVoteChange
    · simp [hs, hv, hne]
    · simp [hs, hv, hne]

/-- Witness for the amended C6: an empty selection is rejected as a
validation error and the store stays empty. -/
theorem validation_error_iff_empty_witness :
    (onSubmit (some "p1") "voter1" [] false false []).1
        = SubmitOutcome.validationError ∧
    (onSubmit (some "p1") "voter1" [] false false []).2 = [] :=
  ⟨(validation_error_iff_empty "p1" "voter1" [] false false []).1.mpr rfl,
   (validation_error_iff_empty "p1" "voter1" [] false false []).2
     (by decide)⟩
